import Mathlib

/-!
Verification of the Billboard_Minerva repository
(`services/links.py` and `services/billboard.py`).

Embedding conventions:
* In the `Links` namespace (embedding `services/links.py`), Python strings
  are modelled as their UTF-8 byte sequences (`List Nat`, each element
  `< 256`): `urllib.parse.quote` / `unquote` operate on UTF-8 bytes, so the
  byte level is the natural granularity for the URL-encoding claims.
* In the `Billboard` namespace (embedding `services/billboard.py`), Python
  strings are modelled as Lean `String`s; `str.strip` / the regex `\s` are
  modelled over the ASCII whitespace characters (multi-byte Unicode
  whitespace is outside the model).
* Network I/O is modelled by oracle parameters: each embedded function that
  performs an HTTP request takes the outcome of that request as an argument
  and additionally returns the number of outbound network calls it made.
  The oracle outcome `raises` covers any exception escaping the HTTP call
  or the subsequent payload access (timeout, non-success status after
  retries, malformed JSON, wrongly-typed payload fields).
-/

namespace Links

/-- A Python string as its UTF-8 byte sequence. -/
abbrev Bytes := List Nat

/-- UTF-8 encoding of a single character (standard 1--4 byte encoding). -/
def utf8Bytes (c : Char) : List Nat :=
  let n := c.toNat
  if n < 0x80 then [n]
  else if n < 0x800 then [0xC0 + n / 64, 0x80 + n % 64]
  else if n < 0x10000 then [0xE0 + n / 4096, 0x80 + n / 64 % 64, 0x80 + n % 64]
  else [0xF0 + n / 262144, 0x80 + n / 4096 % 64, 0x80 + n / 64 % 64, 0x80 + n % 64]

/-- Convenience: the UTF-8 bytes of a Lean string literal. -/
def strBytes (s : String) : Bytes :=
  s.data.flatMap utf8Bytes

/-- Bytes stripped by Python `str.strip()` (single-byte whitespace:
ASCII whitespace and the file/group/record/unit separators). -/
def isWsByte (b : Nat) : Bool :=
  b = 32 || b = 9 || b = 10 || b = 11 || b = 12 || b = 13 ||
  b = 28 || b = 29 || b = 30 || b = 31

/-- `str.strip()` over UTF-8 bytes. -/
def pyStrip (s : Bytes) : Bytes :=
  ((s.dropWhile isWsByte).reverse.dropWhile isWsByte).reverse

/-- Characters never percent-encoded by `urllib.parse.quote` with its
default `safe='/'`: ASCII alphanumerics, `_.-~` and `/`. -/
def quoteSafe (b : Nat) : Bool :=
  (48 ≤ b && b ≤ 57) || (65 ≤ b && b ≤ 90) || (97 ≤ b && b ≤ 122) ||
  b = 95 || b = 46 || b = 45 || b = 126 || b = 47

/-- Uppercase hexadecimal digit for a value `< 16`. -/
def hexDig (n : Nat) : Nat :=
  if n < 10 then 48 + n else 55 + n

/-- Percent-encoding of one byte: kept verbatim when safe, otherwise
`%XY` with uppercase hex. -/
def quoteByte (b : Nat) : Bytes :=
  if quoteSafe b then [b] else [37, hexDig (b / 16), hexDig (b % 16)]

/-- `urllib.parse.quote(s, safe='/')` over UTF-8 bytes. -/
def quote (s : Bytes) : Bytes :=
  s.flatMap quoteByte

/-- A byte accepted as a hex digit by `urllib.parse.unquote`. -/
def isHexByte (b : Nat) : Bool :=
  (48 ≤ b && b ≤ 57) || (65 ≤ b && b ≤ 70) || (97 ≤ b && b ≤ 102)

/-- Value of a hex-digit byte. -/
def hexVal (b : Nat) : Nat :=
  if b ≤ 57 then b - 48 else if b ≤ 70 then b - 55 else b - 87

/-- `urllib.parse.unquote` over UTF-8 bytes: each `%XY` with two hex
digits decodes to one byte; an invalid `%` is kept literally. -/
def unquote : Bytes → Bytes
  | [] => []
  | c :: rest =>
    if c = 37 then
      match rest with
      | a :: b :: rest2 =>
        if isHexByte a && isHexByte b then
          (16 * hexVal a + hexVal b) :: unquote rest2
        else
          c :: unquote (a :: b :: rest2)
      | [] => [c]
      | [a] => [c, a]
    else c :: unquote rest
termination_by s => s.length

/-- Resolution method tag of `services/links.py` (the spec's interface
names these `"resolved"` and `"fallback"`). -/
inductive Method where
  | odesli
  | search_fallback
deriving DecidableEq

/-- `SpotifyLinkResult` of `services/links.py`. -/
structure SpotifyLinkResult where
  url : Bytes
  method : Method
deriving DecidableEq

/-- Outcome of one modelled HTTP interaction: `raises` covers any
exception escaping the call or the payload access; `returns a` is the
value the surrounding Python code extracts from the response. -/
inductive StepOutcome (α : Type) where
  | raises
  | returns (a : α)
deriving DecidableEq

/-- Oracle payload for the iTunes search call: the `results` array,
each element abstracted to its optional `trackViewUrl` field. -/
abbrev ItunesResults := List (Option Bytes)

/-- `itunes_find_track_url(title, artist)`: builds the search term
`f"{title} {artist}".strip()`; a blank term returns `None` with no
network call; otherwise one GET whose outcome is `net`.  The returned
`Nat` counts outbound network calls. -/
def itunes_find_track_url (net : StepOutcome ItunesResults)
    (title artist : Bytes) : StepOutcome (Option Bytes) × Nat :=
  let term := pyStrip (title ++ [32] ++ artist)
  if term = [] then (.returns none, 0)
  else
    match net with
    | .raises => (.raises, 1)
    | .returns results =>
      match results with
      | [] => (.returns none, 1)
      | r0 :: _ => (.returns r0, 1)

/-- Oracle payload for the Odesli call: `linksByPlatform["spotify"]`
when present and a dict (outer `Option`), abstracted to its optional
`"url"` field (inner `Option`). -/
abbrev OdesliSpotify := Option (Option Bytes)

/-- `odesli_get_spotify_url(source_url)`: an empty source URL returns
`None` with no network call; otherwise one GET whose outcome is `net`. -/
def odesli_get_spotify_url (net : StepOutcome OdesliSpotify)
    (source_url : Bytes) : StepOutcome (Option Bytes) × Nat :=
  if source_url = [] then (.returns none, 0)
  else
    match net with
    | .raises => (.raises, 1)
    | .returns sp => (.returns sp.join, 1)

/-- `spotify_search_url(title, artist)`:
`https://open.spotify.com/search/` followed by
`quote(f"{title} {artist}".strip())`. -/
def spotify_search_url (title artist : Bytes) : Bytes :=
  strBytes "https://open.spotify.com/search/" ++
    quote (pyStrip (title ++ [32] ++ artist))

/-- `best_spotify_link(title, artist)`: try iTunes → Odesli inside a
`try`/`except` that swallows every exception; empty/`None` intermediate
values (Python falsiness) also fall through to the search-URL fallback.
Returns the result together with the number of outbound network calls. -/
def best_spotify_link (netI : StepOutcome ItunesResults)
    (netO : StepOutcome OdesliSpotify) (title artist : Bytes) :
    SpotifyLinkResult × Nat :=
  let fallback : SpotifyLinkResult :=
    ⟨spotify_search_url title artist, .search_fallback⟩
  let (rI, cI) := itunes_find_track_url netI title artist
  match rI with
  | .raises => (fallback, cI)
  | .returns none => (fallback, cI)
  | .returns (some it_url) =>
    if it_url = [] then (fallback, cI)
    else
      let (rO, cO) := odesli_get_spotify_url netO it_url
      match rO with
      | .raises => (fallback, cI + cO)
      | .returns none => (fallback, cI + cO)
      | .returns (some sp) =>
        if sp = [] then (fallback, cI + cO)
        else (⟨sp, .odesli⟩, cI + cO)

end Links

namespace Billboard

/-- JSON values as produced by `json.loads` (numbers restricted to
integers, which covers every numeric field the parser inspects). -/
inductive Json where
  | null
  | bool (b : Bool)
  | num (n : Int)
  | str (s : String)
  | arr (xs : List Json)
  | obj (kvs : List (String × Json))

/-- A Python dict (JSON object body): association list, first key wins. -/
abbrev JDict := List (String × Json)

/-- `d.get(k)` on a dict: `none` models Python `None` for a missing key. -/
def jget (d : JDict) (k : String) : Option Json :=
  (d.find? (fun kv => kv.1 = k)).map (fun kv => kv.2)

/-- Python truthiness of a JSON value. -/
def jtruthy : Json → Bool
  | .null => false
  | .bool b => b
  | .num n => n ≠ 0
  | .str s => s ≠ ""
  | .arr xs => !xs.isEmpty
  | .obj kvs => !kvs.isEmpty

/-- Whitespace for the model of `str.strip` and the regex `\s`
(ASCII whitespace; multi-byte Unicode whitespace is outside the model). -/
def isPyWs (c : Char) : Bool :=
  c = ' ' || c = '\t' || c = '\n' || c = '\r' ||
  c.toNat = 11 || c.toNat = 12

/-- `str.strip()` on a character list. -/
def stripChars (l : List Char) : List Char :=
  ((l.dropWhile isPyWs).reverse.dropWhile isPyWs).reverse

/-- `re.sub(r"\s+", " ", ·)`: collapse each whitespace run to one space. -/
def collapseWs : Bool → List Char → List Char
  | _, [] => []
  | prevWs, c :: rest =>
    if isPyWs c then
      if prevWs then collapseWs true rest
      else ' ' :: collapseWs true rest
    else c :: collapseWs false rest

/-- `_clean(x)` for a string argument: `re.sub(r"\s+", " ", x.strip())`. -/
def cleanStr (s : String) : String :=
  String.mk (collapseWs false (stripChars s.data))

/-- `_clean(x)` for a JSON value `x`: `(x or "")` maps falsy values to
`""`; a truthy non-string then raises `AttributeError` at `.strip()`
(modelled as `Except.error`). -/
def cleanJ (x : Json) : Except Unit String :=
  if jtruthy x then
    match x with
    | .str s => .ok (cleanStr s)
    | _ => .error ()
  else .ok ""

/-- `int(pos)` on a JSON value, `none` when it raises
(`TypeError`/`ValueError`; string form: optional sign and digits after
stripping whitespace — numeric-literal underscores are outside the model). -/
def pyInt : Json → Option Int
  | .num n => some n
  | .bool b => some (if b then 1 else 0)
  | .str s =>
    let t := stripChars s.data
    match t with
    | '-' :: ds => if ds ≠ [] && ds.all Char.isDigit then
        some (-(String.mk ds).toNat!) else none
    | '+' :: ds => if ds ≠ [] && ds.all Char.isDigit then
        some ((String.mk ds).toNat!) else none
    | ds => if ds ≠ [] && ds.all Char.isDigit then
        some ((String.mk ds).toNat!) else none
  | _ => none

/-- `ChartEntry` of `services/billboard.py` (`rank` is a Python int). -/
structure ChartEntry where
  rank : Int
  title : String
  artist : String
deriving DecidableEq

/-- The rank computed for one list item:
`int(pos) if pos else len(entries) + 1`, with any exception caught and
replaced by the sequential fallback `len(entries) + 1`. -/
def rankOf (pos : Option Json) (nEntries : Nat) : Int :=
  match pos with
  | none => (nEntries : Int) + 1
  | some p =>
    if jtruthy p then (pyInt p).getD ((nEntries : Int) + 1)
    else (nEntries : Int) + 1

/-- The artist extracted from a ListItem's `item` dict: `byArtist` as a
dict, or the first element of a `byArtist` list when that is a dict,
else `""`. -/
def artistOf (item : JDict) : Except Unit String :=
  match jget item "byArtist" with
  | some (.obj by_kvs) => cleanJ ((jget by_kvs "name").getD (.str ""))
  | some (.arr (first :: _)) =>
    match first with
    | .obj by_kvs => cleanJ ((jget by_kvs "name").getD (.str ""))
    | _ => .ok ""
  | _ => .ok ""

/-- One iteration of the `_parse_jsonld_itemlist` loop body applied to
item `it` with `nEntries` entries collected so far: `ok none` models
`continue`, `ok (some e)` models `entries.append(e)`. -/
def itemStep (it : Json) (nEntries : Nat) : Except Unit (Option ChartEntry) :=
  match it with
  | .obj kvs =>
    -- `it.get("@type") != "ListItem"` holds unless the field is that string
    match jget kvs "@type" with
    | some (.str "ListItem") =>
      let pos := jget kvs "position"
      match (jget kvs "item").getD (.obj []) with
      | .obj item_kvs =>
        match cleanJ ((jget item_kvs "name").getD (.str "")) with
        | .error () => .error ()
        | .ok title =>
          match artistOf item_kvs with
          | .error () => .error ()
          | .ok artist =>
            if title = "" then .ok none
            else .ok (some ⟨rankOf pos nEntries, title, artist⟩)
      | _ => .ok none
    | _ => .ok none
  | _ => .ok none

/-- The `for it in items` loop of `_parse_jsonld_itemlist`, breaking as
soon as `len(entries) >= limit` after an append. -/
def itemsLoop (limit : Int) : List Json → List ChartEntry →
    Except Unit (List ChartEntry)
  | [], acc => .ok acc
  | it :: rest, acc =>
    match itemStep it acc.length with
    | .error () => .error ()
    | .ok none => itemsLoop limit rest acc
    | .ok (some e) =>
      let acc' := acc ++ [e]
      if (acc'.length : Int) ≥ limit then .ok acc'
      else itemsLoop limit rest acc'

/-- `_parse_jsonld_itemlist(obj, limit)` for a dict `obj`. -/
def parse_jsonld_itemlist (obj : JDict) (limit : Int) :
    Except Unit (List ChartEntry) :=
  -- `obj.get("@type") != "ItemList"` returns `[]` unless the field is that string
  match jget obj "@type" with
  | some (.str "ItemList") =>
    match jget obj "itemListElement" with
    | some (.arr items) => (itemsLoop limit items []).map (·.take limit.toNat)
    | _ => .ok []
  | _ => .ok []

/-- `isinstance(x, dict)`. -/
def isObjJ : Json → Bool
  | .obj _ => true
  | _ => false

/-- The dicts contributed by an object's `@graph` list, when present. -/
def graphMembers : Json → List Json
  | .obj kvs =>
    match jget kvs "@graph" with
    | some (.arr g) => g.filter isObjJ
    | _ => []
  | _ => []

/-- The inner `for obj in queue` loop of `_parse_jsonld`: the first dict
whose ItemList extraction is non-empty short-circuits the scan. -/
def scanQueue (limit : Int) : List Json → Except Unit (Option (List ChartEntry))
  | [] => .ok none
  | o :: rest =>
    match o with
    | .obj kvs =>
      match parse_jsonld_itemlist kvs limit with
      | .error () => .error ()
      | .ok extracted =>
        if extracted.isEmpty then scanQueue limit rest
        else .ok (some extracted)
    | _ => scanQueue limit rest

/-- The scan queue built by `_parse_jsonld` for one parsed block:
`queue = data if isinstance(data, list) else [data]` followed by
`queue.extend(expanded)` where `expanded` collects `@graph` dicts. -/
def jsonldQueue (data : Json) : List Json :=
  let queue :=
    match data with
    | .arr xs => xs
    | j => [j]
  queue ++ queue.flatMap graphMembers

/-- `_parse_jsonld(soup, limit)`.  Each script block is given by the
result of `json.loads` on its text: `none` models an empty script body
or malformed JSON (the swallowed `json.loads` exception). -/
def parse_jsonld (blocks : List (Option Json)) (limit : Int) :
    Except Unit (List ChartEntry) :=
  match blocks with
  | [] => .ok []
  | none :: rest => parse_jsonld rest limit
  | some data :: rest =>
    match scanQueue limit (jsonldQueue data) with
    | .error () => .error ()
    | .ok (some extracted) => .ok extracted
    | .ok none => parse_jsonld rest limit

/-- `str.lower()` (ASCII model). -/
def pyLower (s : String) : String :=
  String.mk (s.data.map Char.toLower)

/-- `str.upper()` (ASCII model). -/
def pyUpper (s : String) : String :=
  String.mk (s.data.map Char.toUpper)

/-- `str.isdigit()` (ASCII model): non-empty and all digits. -/
def pyIsDigit (s : String) : Bool :=
  !s.data.isEmpty && s.data.all Char.isDigit

/-- One chart row for the markup fallback: the `h3#title-of-a-story`
text and, when `find_parent` locates the enclosing
`li.o-chart-results-list__item`, the texts of that row's `span`s. -/
structure MarkupRow where
  titleRaw : String
  spans : Option (List String)

/-- The `for sp in item.select("span")` loop of `_parse_html_fallback`:
first span whose cleaned text is non-empty, not a rank-change marker,
at least 2 characters and not purely numeric; `""` if none qualifies. -/
def pickArtist : List String → String
  | [] => ""
  | raw :: rest =>
    let txt := cleanStr raw
    if txt = "" then pickArtist rest
    else if pyUpper txt = "NEW" || pyUpper txt = "RE-ENTRY" then pickArtist rest
    else if 2 ≤ txt.length && !pyIsDigit txt then txt
    else pickArtist rest

/-- The `for h3 in h3s` loop of `_parse_html_fallback`: appends a row's
entry when its title is non-empty and its lowercase (title, artist) key
is unseen; checks `len(entries) >= limit` at the end of every iteration. -/
def htmlLoop (limit : Int) : List MarkupRow → List (String × String) →
    List ChartEntry → List ChartEntry
  | [], _, acc => acc
  | row :: rest, seen, acc =>
    let title := cleanStr row.titleRaw
    let artist :=
      match row.spans with
      | none => ""
      | some sps => pickArtist sps
    let key := (pyLower title, pyLower artist)
    -- `if title and key not in seen: seen.add(key); entries.append(...)`,
    -- then `if len(entries) >= limit: break` at the end of every iteration
    if title ≠ "" ∧ key ∉ seen then
      let acc' := acc ++ [⟨(acc.length : Int) + 1, title, artist⟩]
      if (acc'.length : Int) ≥ limit then acc'
      else htmlLoop limit rest (key :: seen) acc'
    else
      if ((acc.length : Int) ≥ limit) then acc
      else htmlLoop limit rest seen acc

/-- `_parse_html_fallback(soup, limit)` over the selected rows. -/
def parse_html_fallback (rows : List MarkupRow) (limit : Int) : List ChartEntry :=
  (htmlLoop limit rows [] []).take limit.toNat

/-- The parseable content of a fetched chart page: its JSON-LD script
blocks and its markup result rows. -/
structure Page where
  jsonldBlocks : List (Option Json)
  markupRows : List MarkupRow

/-- `BILLBOARD_URL.format(date_str=date_str)`. -/
def billboardUrl (date_str : String) : String :=
  "https://www.billboard.com/charts/hot-100/" ++ date_str ++ "/"

/-- `fetch_hot100(date_str, limit)`.  The single GET's outcome is the
oracle `net`: `none` models a connection failure or a non-success
status (`raise_for_status`); `some page` a successfully fetched page.
Returns the entries (as `ChartEntry` values; `to_dict` is the identity
on the three fields) and the number of outbound network calls. -/
def fetch_hot100 (date_str : String) (limit : Int) (net : Option Page) :
    Except Unit (List ChartEntry) × Nat :=
  if limit ≤ 0 then (.ok [], 0)
  else
    let _url := billboardUrl date_str
    match net with
    | none => (.error (), 1)
    | some page =>
      match parse_jsonld page.jsonldBlocks limit with
      | .error () => (.error (), 1)
      | .ok entries =>
        (.ok (if entries.isEmpty then parse_html_fallback page.markupRows limit
              else entries), 1)

/-- The case-insensitive deduplication key of an entry, as used by
`_parse_html_fallback`: lowercase (title, artist). -/
def keyOf (e : ChartEntry) : String × String :=
  (pyLower e.title, pyLower e.artist)

/-- Modelled from the spec's words (for comparison with `pickArtist`):
"pick the first fragment that is non-empty, not purely numeric, at
least 2 characters, and not one of the literal rank-change markers". -/
def specQualifies (raw : String) : Bool :=
  let t := cleanStr raw
  t ≠ "" && !pyIsDigit t && 2 ≤ t.length &&
    !(pyUpper t = "NEW" || pyUpper t = "RE-ENTRY")

/-- A well-formed ListItem at index `idx` of an ItemList payload: a
`ListItem` dict whose `item` is a dict with a non-empty cleaned string
name, whose artist field extraction succeeds, and whose `position`
either declares rank `idx + 1` or falls back to it (missing, falsy or
unparseable). -/
def itemOK (idx : Nat) (it : Json) : Prop :=
  ∃ kvs, it = Json.obj kvs ∧
    jget kvs "@type" = some (.str "ListItem") ∧
    rankOf (jget kvs "position") idx = (idx : Int) + 1 ∧
    ∃ item_kvs, (jget kvs "item").getD (.obj []) = .obj item_kvs ∧
      (∃ t, cleanJ ((jget item_kvs "name").getD (.str "")) = .ok t ∧ t ≠ "") ∧
      (∃ a, artistOf item_kvs = .ok a)

/-- A canonical ListItem JSON object (used by concrete scenarios). -/
def mkListItem (pos : Option Json) (name art : String) : Json :=
  .obj ([("@type", .str "ListItem")] ++
    (match pos with
     | some p => [("position", p)]
     | none => []) ++
    [("item", .obj [("name", .str name), ("byArtist", .obj [("name", .str art)])])])

/-- The items list of the spec's scenario payload. -/
def scenItems : List Json :=
  [mkListItem (some (.num 1)) "Song A" "Artist A"]

/-- The spec's scenario payload, as a dict:
`{"@type":"ItemList","itemListElement":[{"@type":"ListItem","position":1,
"item":{"name":"Song A","byArtist":{"name":"Artist A"}}}]}`. -/
def scenDict : JDict :=
  [("@type", .str "ItemList"), ("itemListElement", .arr scenItems)]

/-- The spec's scenario payload as a JSON value. -/
def scenPayload : Json :=
  .obj scenDict

/-- A page whose only JSON-LD block is the scenario payload. -/
def scenPage : Page :=
  ⟨[some scenPayload], []⟩

/-- An ItemList payload declaring position 1 twice. -/
def dupPayload : Json :=
  .obj [("@type", .str "ItemList"),
        ("itemListElement", .arr [mkListItem (some (.num 1)) "Song A" "Artist A",
                                  mkListItem (some (.num 1)) "Song B" "Artist B"])]

/-- A page whose only JSON-LD block declares position 1 twice. -/
def dupPage : Page :=
  ⟨[some dupPayload], []⟩

/-- A page with no JSON-LD and two markup rows. -/
def markupPage : Page :=
  ⟨[], [⟨"Song X", some ["", "NEW", "5", "Artist X"]⟩,
        ⟨"Song Y", some ["Artist Y"]⟩]⟩

end Billboard

/-- The arguments of `urllib3.util.retry.Retry` as constructed by the
(identical) `_build_session` helpers of `services/billboard.py` and
`services/links.py`.  The float `backoff_factor=0.6` is modelled as the
rational `6/10`. -/
structure RetryConfig where
  total : Nat
  connect : Nat
  read : Nat
  backoffFactor : ℚ
  statusForcelist : List Nat
  allowedMethods : List String
  raiseOnStatus : Bool
deriving DecidableEq

namespace Billboard

/-- The `Retry` configuration of `_build_session` in `services/billboard.py`. -/
def buildSessionRetry : RetryConfig :=
  ⟨3, 3, 3, 6/10, [429, 500, 502, 503, 504], ["GET"], false⟩

end Billboard

namespace Links

/-- The `Retry` configuration of `_build_session` in `services/links.py`. -/
def buildSessionRetry : RetryConfig :=
  ⟨3, 3, 3, 6/10, [429, 500, 502, 503, 504], ["GET"], false⟩

end Links


/-! ## Theorems -/

namespace Links

theorem hexDig_isHex : ∀ n < 16, isHexByte (hexDig n) = true := by decide

theorem hexVal_hexDig : ∀ n < 16, hexVal (hexDig n) = n := by decide

theorem unquote_nil : unquote [] = [] := by
  rw [unquote.eq_def]

theorem unquote_cons_safe (b : Nat) (rest : Bytes) (hb : b ≠ 37) :
    unquote (b :: rest) = b :: unquote rest := by
  rw [unquote.eq_def]
  simp [hb]

theorem unquote_percent (a b : Nat) (rest : Bytes) (ha : isHexByte a = true)
    (hb : isHexByte b = true) :
    unquote (37 :: a :: b :: rest) = (16 * hexVal a + hexVal b) :: unquote rest := by
  rw [unquote.eq_def]
  simp [ha, hb]

theorem unquote_quote (s : Bytes) (h : ∀ b ∈ s, b < 256) : unquote (quote s) = s := by
  induction s with
  | nil => rw [show quote [] = [] from rfl, unquote_nil]
  | cons b rest ih =>
    have hb : b < 256 := h b (List.mem_cons_self b rest)
    have hr : ∀ x ∈ rest, x < 256 := fun x hx => h x (List.mem_cons_of_mem _ hx)
    have hq : quote (b :: rest) = quoteByte b ++ quote rest := List.flatMap_cons b rest _
    rw [hq]
    by_cases hs : quoteSafe b
    · rw [show quoteByte b = [b] from by simp [quoteByte, hs]]
      have hb37 : b ≠ 37 := by
        intro he
        subst he
        exact absurd hs (by decide)
      rw [List.singleton_append, unquote_cons_safe b _ hb37, ih hr]
    · rw [show quoteByte b = [37, hexDig (b / 16), hexDig (b % 16)] from by
        simp [quoteByte, hs]]
      have h1 : b / 16 < 16 := by omega
      have h2 : b % 16 < 16 := Nat.mod_lt _ (by norm_num)
      rw [List.cons_append, List.cons_append, List.cons_append, List.nil_append,
        unquote_percent _ _ _ (hexDig_isHex _ h1) (hexDig_isHex _ h2),
        hexVal_hexDig _ h1, hexVal_hexDig _ h2, ih hr]
      congr 1
      omega

theorem pyStrip_sublist (s : Bytes) : (pyStrip s).Sublist s := by
  unfold pyStrip
  have h2 := List.dropWhile_sublist (l := (s.dropWhile isWsByte).reverse) isWsByte
  have h3 : ((s.dropWhile isWsByte).reverse.dropWhile isWsByte).reverse.Sublist
      ((s.dropWhile isWsByte).reverse.reverse) := List.reverse_sublist.mpr h2
  rw [List.reverse_reverse] at h3
  exact h3.trans (List.dropWhile_sublist _)

theorem spotify_search_url_ne_nil (title artist : Bytes) :
    spotify_search_url title artist ≠ [] := by
  unfold spotify_search_url
  intro h
  rw [List.append_eq_nil] at h
  exact absurd h.1 (by decide)

/-- Claim C3: for every combination of empty or non-empty title and artist
and every outcome of the two resolution sub-steps (raised exceptions, empty
results, malformed payloads — all folded into the oracle outcomes),
`best_spotify_link` returns a `SpotifyLinkResult` — no exception escapes the
`try`/`except` — and the result always carries a usable (non-empty) URL:
either a resolved Spotify URL or exactly the search fallback URL. -/
theorem best_spotify_link_never_raises (netI : StepOutcome ItunesResults)
    (netO : StepOutcome OdesliSpotify) (title artist : Bytes) :
    (best_spotify_link netI netO title artist).1.url ≠ [] ∧
    ((best_spotify_link netI netO title artist).1.method = .odesli ∨
     (best_spotify_link netI netO title artist).1 =
       ⟨spotify_search_url title artist, .search_fallback⟩) := by
  unfold best_spotify_link
  rcases hI : itunes_find_track_url netI title artist with ⟨rI, cI⟩
  rcases rI with _ | u
  · exact ⟨spotify_search_url_ne_nil _ _, Or.inr rfl⟩
  · rcases u with _ | it_url
    · exact ⟨spotify_search_url_ne_nil _ _, Or.inr rfl⟩
    · by_cases hnil : it_url = []
      · simp only [hnil, if_pos rfl]
        exact ⟨spotify_search_url_ne_nil _ _, Or.inr rfl⟩
      · simp only [if_neg hnil]
        rcases hO : odesli_get_spotify_url netO it_url with ⟨rO, cO⟩
        rcases rO with _ | sp
        · exact ⟨spotify_search_url_ne_nil _ _, Or.inr rfl⟩
        · rcases sp with _ | sp
          · exact ⟨spotify_search_url_ne_nil _ _, Or.inr rfl⟩
          · by_cases hsp : sp = []
            · simp only [hsp, if_pos rfl]
              exact ⟨spotify_search_url_ne_nil _ _, Or.inr rfl⟩
            · simp only [if_neg hsp]
              exact ⟨hsp, Or.inl (by simp)⟩

theorem best_spotify_link_never_raises_witness :
    (best_spotify_link .raises .raises (strBytes "Hello") (strBytes "Adele")).1.url ≠ [] :=
  (best_spotify_link_never_raises .raises .raises (strBytes "Hello") (strBytes "Adele")).1

end Links
namespace Links

/-- Claim C4: whenever the catalog search yields no usable URL, or the
cross-platform aggregation step fails or yields nothing, `best_spotify_link`
returns method `search_fallback` (the spec's `"fallback"`) with URL exactly
`https://open.spotify.com/search/` followed by the URL-encoded trimmed
`"{title} {artist}"`; in particular
`spotify_search_url("Hello", "Adele") = ".../search/Hello%20Adele"`. -/
theorem best_spotify_link_fallback_url (netI : StepOutcome ItunesResults)
    (netO : StepOutcome OdesliSpotify) (title artist : Bytes)
    (h : (∀ u : Bytes, u ≠ [] →
            (itunes_find_track_url netI title artist).1 ≠ .returns (some u)) ∨
         (∀ u : Bytes, (odesli_get_spotify_url netO u).1 = .raises ∨
            (odesli_get_spotify_url netO u).1 = .returns none ∨
            (odesli_get_spotify_url netO u).1 = .returns (some []))) :
    (best_spotify_link netI netO title artist).1 =
      ⟨spotify_search_url title artist, .search_fallback⟩ ∧
    spotify_search_url (strBytes "Hello") (strBytes "Adele") =
      strBytes "https://open.spotify.com/search/Hello%20Adele" := by
  refine ⟨?_, by decide⟩
  unfold best_spotify_link
  rcases hI : itunes_find_track_url netI title artist with ⟨rI, cI⟩
  rcases rI with _ | u
  · rfl
  · rcases u with _ | it_url
    · rfl
    · by_cases hnil : it_url = []
      · subst hnil
        rfl
      · have hO' : (odesli_get_spotify_url netO it_url).1 = .raises ∨
            (odesli_get_spotify_url netO it_url).1 = .returns none ∨
            (odesli_get_spotify_url netO it_url).1 = .returns (some []) := by
          rcases h with h | h
          · exact absurd (by rw [hI]) (h it_url hnil)
          · exact h it_url
        simp only [if_neg hnil]
        rcases hO : odesli_get_spotify_url netO it_url with ⟨rO, cO⟩
        rw [hO] at hO'
        rcases hO' with h' | h' | h'
        · obtain rfl : rO = .raises := h'
          rfl
        · obtain rfl : rO = .returns none := h'
          rfl
        · obtain rfl : rO = .returns (some []) := h'
          rfl

theorem best_spotify_link_fallback_url_witness :
    (best_spotify_link .raises .raises (strBytes "Hello") (strBytes "Adele")).1 =
      ⟨spotify_search_url (strBytes "Hello") (strBytes "Adele"), .search_fallback⟩ ∧
    spotify_search_url (strBytes "Hello") (strBytes "Adele") =
      strBytes "https://open.spotify.com/search/Hello%20Adele" :=
  best_spotify_link_fallback_url .raises .raises _ _
    (Or.inr (fun u => by
      by_cases hu : u = []
      · subst hu
        exact Or.inr (Or.inl rfl)
      · simp only [odesli_get_spotify_url, if_neg hu]
        exact Or.inl trivial))

/-- Claim C9: the query segment of the fallback search URL is
`quote` of the trimmed `"title artist"` term, and URL-decoding it recovers
exactly that trimmed term (decode after encode is the identity). -/
theorem spotify_search_url_roundtrip (title artist : Bytes)
    (h : ∀ b ∈ title ++ [32] ++ artist, b < 256) :
    spotify_search_url title artist =
      strBytes "https://open.spotify.com/search/" ++
        quote (pyStrip (title ++ [32] ++ artist)) ∧
    unquote (quote (pyStrip (title ++ [32] ++ artist))) =
      pyStrip (title ++ [32] ++ artist) := by
  refine ⟨rfl, unquote_quote _ ?_⟩
  intro b hb
  exact h b ((pyStrip_sublist _).mem hb)

theorem spotify_search_url_roundtrip_witness :
    (∀ b ∈ strBytes "Hello" ++ [32] ++ strBytes "Adele", b < 256) ∧
    unquote (quote (pyStrip (strBytes "Hello" ++ [32] ++ strBytes "Adele"))) =
      pyStrip (strBytes "Hello" ++ [32] ++ strBytes "Adele") :=
  ⟨by decide, (spotify_search_url_roundtrip (strBytes "Hello") (strBytes "Adele")
    (by decide)).2⟩

/-- Claim C10: when both title and artist are empty or whitespace-only,
`best_spotify_link` makes no outbound network call (the iTunes lookup
returns `None` immediately for the blank term, and Odesli is never invoked)
and deterministically returns the fallback result whose URL is exactly
`https://open.spotify.com/search/` with an empty encoded query. -/
theorem best_spotify_link_blank (netI : StepOutcome ItunesResults)
    (netO : StepOutcome OdesliSpotify) (title artist : Bytes)
    (ht : ∀ b ∈ title, isWsByte b = true) (ha : ∀ b ∈ artist, isWsByte b = true) :
    best_spotify_link netI netO title artist =
      (⟨strBytes "https://open.spotify.com/search/", .search_fallback⟩, 0) := by
  have hterm : pyStrip (title ++ [32] ++ artist) = [] := by
    have hall : ∀ b ∈ title ++ [32] ++ artist, isWsByte b = true := by
      intro b hb
      rcases List.mem_append.mp hb with hb | hb
      · rcases List.mem_append.mp hb with hb | hb
        · exact ht b hb
        · rw [List.mem_singleton] at hb
          subst hb
          decide
      · exact ha b hb
    unfold pyStrip
    rw [List.dropWhile_eq_nil_iff.mpr hall]
    rfl
  unfold best_spotify_link itunes_find_track_url
  simp only [hterm, if_pos rfl]
  unfold spotify_search_url
  rw [hterm]
  rfl

theorem best_spotify_link_blank_witness :
    best_spotify_link .raises .raises (strBytes " ") [] =
      (⟨strBytes "https://open.spotify.com/search/", .search_fallback⟩, 0) :=
  best_spotify_link_blank .raises .raises (strBytes " ") [] (by decide) (by decide)

end Links

/-- Claim C8: the `Retry` configuration built by both `_build_session`
helpers retries only on connection errors (`connect=3`) and on the HTTP
statuses 429, 500, 502, 503, 504, with at most the configured bound of 3,
exponential backoff factor 0.6 (modelled as `6/10`), and applies only to
idempotent GET requests; `raise_on_status=False` leaves other failing
statuses to surface to the caller without retry.  (The retry execution
semantics live in `urllib3`; the claim is settled at the configuration
level, which is all the repository's code determines.) -/
theorem build_session_retry_policy :
    Billboard.buildSessionRetry.total = 3 ∧
    Links.buildSessionRetry.total = 3 ∧
    (∀ s : Nat, s ∈ Billboard.buildSessionRetry.statusForcelist ↔
      s = 429 ∨ s = 500 ∨ s = 502 ∨ s = 503 ∨ s = 504) ∧
    (∀ s : Nat, s ∈ Links.buildSessionRetry.statusForcelist ↔
      s = 429 ∨ s = 500 ∨ s = 502 ∨ s = 503 ∨ s = 504) ∧
    Billboard.buildSessionRetry.allowedMethods = ["GET"] ∧
    Links.buildSessionRetry.allowedMethods = ["GET"] ∧
    Billboard.buildSessionRetry.backoffFactor = 6/10 ∧
    Links.buildSessionRetry.backoffFactor = 6/10 ∧
    Billboard.buildSessionRetry.raiseOnStatus = false ∧
    Links.buildSessionRetry.raiseOnStatus = false := by
  refine ⟨rfl, rfl, ?_, ?_, rfl, rfl, rfl, rfl, rfl, rfl⟩ <;>
    intro s <;>
    simp [Billboard.buildSessionRetry, Links.buildSessionRetry]

/-- Claim C6: `fetch_hot100` called with `limit = 0` returns an empty
sequence and performs zero network calls, for every chart week and every
possible network outcome. -/
theorem fetch_hot100_limit_zero (date_str : String) (net : Option Billboard.Page) :
    Billboard.fetch_hot100 date_str 0 net = (.ok [], 0) := rfl
namespace Billboard

/-- Claim C7: in the markup fallback, the artist chosen from a row's span
fragments is the cleaned text of the first fragment that is (after
normalization) non-empty, not a rank-change marker (`NEW`/`RE-ENTRY`),
at least 2 characters and not purely numeric — `specQualifies` transcribes
the spec's wording — and is the empty string when no fragment qualifies
(`htmlLoop` assigns `pickArtist row.spans`, or `""` with no parent row). -/
theorem pickArtist_first_qualifying (sps : List String) :
    pickArtist sps = ((sps.find? specQualifies).map cleanStr).getD "" := by
  induction sps with
  | nil => rfl
  | cons raw rest ih =>
    simp only [pickArtist, List.find?_cons]
    by_cases h1 : cleanStr raw = "" <;>
      by_cases h2a : pyUpper (cleanStr raw) = "NEW" <;>
        by_cases h2b : pyUpper (cleanStr raw) = "RE-ENTRY" <;>
          by_cases h3 : 2 ≤ (cleanStr raw).length <;>
            by_cases h4 : pyIsDigit (cleanStr raw) = true <;>
              (try simp_all [specQualifies]) <;>
              rw [if_neg (by omega), decide_eq_false (by omega)]

end Billboard
namespace Billboard

theorem itemStep_ok (idx : Nat) (it : Json) (hwf : itemOK idx it) :
    ∃ t a, itemStep it idx = .ok (some ⟨(idx : Int) + 1, t, a⟩) ∧ t ≠ "" := by
  obtain ⟨kvs, rfl, htype, hrank, item_kvs, hitem, ⟨t, hname, ht⟩, ⟨a, ha⟩⟩ := hwf
  refine ⟨t, a, ?_, ht⟩
  simp only [itemStep, htype, hitem, hname, ha, if_neg ht, hrank]

theorem itemsLoop_wf (limit : Int) (items : List Json) :
    ∀ (acc : List ChartEntry),
    (∀ i (h : i < items.length), itemOK (acc.length + i) (items.get ⟨i, h⟩)) →
    ((acc.length : Int) + items.length ≤ limit) →
    (∀ i (h : i < acc.length), (acc.get ⟨i, h⟩).rank = (i : Int) + 1) →
    ∃ res, itemsLoop limit items acc = .ok res ∧
      res.length = acc.length + items.length ∧
      (∀ i (h : i < res.length), (res.get ⟨i, h⟩).rank = (i : Int) + 1) := by
  induction items with
  | nil =>
    intro acc _ _ hacc
    exact ⟨acc, rfl, by simp, hacc⟩
  | cons it rest ih =>
    intro acc hwf hlim hacc
    obtain ⟨t, a, hstep, ht⟩ :=
      itemStep_ok acc.length it (by simpa using hwf 0 (by simp))
    have hacc' : ∀ i (h : i < (acc ++ [(⟨(acc.length : Int) + 1, t, a⟩ : ChartEntry)]).length),
        ((acc ++ [(⟨(acc.length : Int) + 1, t, a⟩ : ChartEntry)]).get ⟨i, h⟩).rank
          = (i : Int) + 1 := by
      intro i h
      rcases Nat.lt_or_ge i acc.length with hi | hi
      · rw [List.get_append i hi]
        exact hacc i hi
      · have hlen : i < acc.length + 1 := by simpa using h
        have hieq : i = acc.length := by omega
        subst hieq
        rw [List.get_append_right _ _ hi] <;> simp
    simp only [itemsLoop, hstep]
    by_cases hbreak : (((acc ++ [(⟨(acc.length : Int) + 1, t, a⟩ : ChartEntry)]).length : Int) ≥ limit)
    · rw [if_pos hbreak]
      have hrest : rest = [] := by
        rw [← List.length_eq_zero]
        simp only [List.length_append, List.length_singleton] at hbreak
        simp only [List.length_cons] at hlim
        push_cast at hbreak hlim
        omega
      subst hrest
      exact ⟨_, rfl, by simp, hacc'⟩
    · rw [if_neg hbreak]
      obtain ⟨res, hres, hlen, hranks⟩ := ih (acc ++ [⟨(acc.length : Int) + 1, t, a⟩])
        (by
          intro i h
          have := hwf (i + 1) (by simpa using Nat.succ_lt_succ h)
          simpa [Nat.add_assoc, Nat.add_comm 1 i] using this)
        (by
          simp only [List.length_append, List.length_singleton]
          simp only [List.length_cons] at hlim
          push_cast at hlim ⊢
          omega)
        hacc'
      exact ⟨res, hres, by simp at hlen ⊢; omega, hranks⟩

end Billboard

namespace Billboard

theorem htmlLoop_inv (limit : Int) (rows : List MarkupRow) :
    ∀ (seen : List (String × String)) (acc : List ChartEntry),
    (∀ i (h : i < acc.length), (acc.get ⟨i, h⟩).rank = (i : Int) + 1) →
    (∀ e ∈ acc, keyOf e ∈ seen) →
    (acc.map keyOf).Nodup →
    (∀ i (h : i < (htmlLoop limit rows seen acc).length),
        ((htmlLoop limit rows seen acc).get ⟨i, h⟩).rank = (i : Int) + 1) ∧
    ((htmlLoop limit rows seen acc).map keyOf).Nodup := by
  induction rows with
  | nil =>
    intro seen acc hacc _ hnodup
    exact ⟨hacc, hnodup⟩
  | cons row rest ih =>
    intro seen acc hacc hkeys hnodup
    suffices H : ∀ l, htmlLoop limit (row :: rest) seen acc = l →
        (∀ i (h : i < l.length), (l.get ⟨i, h⟩).rank = (i : Int) + 1) ∧
        (l.map keyOf).Nodup by exact H _ rfl
    intro l hl
    simp only [htmlLoop] at hl
    by_cases hfresh : cleanStr row.titleRaw ≠ "" ∧
        (pyLower (cleanStr row.titleRaw),
         pyLower (match row.spans with | none => "" | some sps => pickArtist sps)) ∉ seen
    · rw [if_pos hfresh] at hl
      have hacc' : ∀ i (h : i < (acc ++
            [(⟨(acc.length : Int) + 1, cleanStr row.titleRaw,
              match row.spans with | none => "" | some sps => pickArtist sps⟩ :
              ChartEntry)]).length),
          ((acc ++ [(⟨(acc.length : Int) + 1, cleanStr row.titleRaw,
              match row.spans with | none => "" | some sps => pickArtist sps⟩ :
              ChartEntry)]).get ⟨i, h⟩).rank = (i : Int) + 1 := by
        intro i h
        rcases Nat.lt_or_ge i acc.length with hi | hi
        · rw [List.get_append i hi]
          exact hacc i hi
        · have hlen : i < acc.length + 1 := by simpa using h
          have hieq : i = acc.length := by omega
          subst hieq
          rw [List.get_append_right _ _ hi] <;> simp
      have hkey_not : (pyLower (cleanStr row.titleRaw),
          pyLower (match row.spans with | none => "" | some sps => pickArtist sps)) ∉
            acc.map keyOf := by
        intro hmem
        obtain ⟨e', he', hke⟩ := List.mem_map.mp hmem
        exact hfresh.2 (hke ▸ hkeys e' he')
      have hnodup' : ((acc ++
            [(⟨(acc.length : Int) + 1, cleanStr row.titleRaw,
              match row.spans with | none => "" | some sps => pickArtist sps⟩ :
              ChartEntry)]).map keyOf).Nodup := by
        rw [List.map_append]
        simp [List.nodup_append, hnodup, keyOf, hkey_not]
      have hkeys' : ∀ e' ∈ acc ++
            [(⟨(acc.length : Int) + 1, cleanStr row.titleRaw,
              match row.spans with | none => "" | some sps => pickArtist sps⟩ :
              ChartEntry)],
          keyOf e' ∈ ((pyLower (cleanStr row.titleRaw),
            pyLower (match row.spans with | none => "" | some sps => pickArtist sps)) :: seen) := by
        intro e' he'
        rcases List.mem_append.mp he' with he' | he'
        · exact List.mem_cons_of_mem _ (hkeys e' he')
        · rw [List.mem_singleton] at he'
          subst he'
          exact List.mem_cons_self _ _
      by_cases hbreak : ((acc ++
            [(⟨(acc.length : Int) + 1, cleanStr row.titleRaw,
              match row.spans with | none => "" | some sps => pickArtist sps⟩ :
              ChartEntry)]).length : Int) ≥ limit
      · rw [if_pos hbreak] at hl
        subst hl
        exact ⟨hacc', hnodup'⟩
      · rw [if_neg hbreak] at hl
        subst hl
        exact ih _ _ hacc' hkeys' hnodup'
    · rw [if_neg hfresh] at hl
      by_cases hbreak : ((acc.length : Int) ≥ limit)
      · rw [if_pos hbreak] at hl
        subst hl
        exact ⟨hacc, hnodup⟩
      · rw [if_neg hbreak] at hl
        subst hl
        exact ih seen acc hacc hkeys hnodup

theorem parse_html_fallback_ranks (rows : List MarkupRow) (limit : Int) :
    ∀ i (h : i < (parse_html_fallback rows limit).length),
      ((parse_html_fallback rows limit).get ⟨i, h⟩).rank = (i : Int) + 1 := by
  have hinv := htmlLoop_inv limit rows [] []
    (by intro i h; exact absurd h (Nat.not_lt_zero i)) (by simp) (by simp)
  intro i h
  unfold parse_html_fallback at h ⊢
  have hlt : i < (htmlLoop limit rows [] []).length := by
    have := List.length_take limit.toNat (htmlLoop limit rows [] [])
    omega
  rw [List.get_take']
  exact hinv.1 i hlt

theorem parse_html_fallback_nodup (rows : List MarkupRow) (limit : Int) :
    ((parse_html_fallback rows limit).map keyOf).Nodup := by
  have hinv := htmlLoop_inv limit rows [] []
    (by intro i h; exact absurd h (Nat.not_lt_zero i)) (by simp) (by simp)
  unfold parse_html_fallback
  rw [List.map_take]
  exact hinv.2.sublist (List.take_sublist _ _)

theorem parse_html_fallback_length_le (rows : List MarkupRow) (limit : Int) :
    (parse_html_fallback rows limit).length ≤ limit.toNat := by
  unfold parse_html_fallback
  have := List.length_take limit.toNat (htmlLoop limit rows [] [])
  omega

end Billboard

namespace Billboard

theorem parse_jsonld_itemlist_core (obj : JDict) (items : List Json) (limit : Int)
    (htype : jget obj "@type" = some (.str "ItemList"))
    (hitems : jget obj "itemListElement" = some (.arr items))
    (hwf : ∀ i (h : i < items.length), itemOK i (items.get ⟨i, h⟩))
    (hlim : (items.length : Int) ≤ limit) :
    ∃ l, parse_jsonld_itemlist obj limit = .ok l ∧ l.length = items.length ∧
      ∀ i (h : i < l.length), (l.get ⟨i, h⟩).rank = (i : Int) + 1 := by
  obtain ⟨res, hloop, hlen, hranks⟩ := itemsLoop_wf limit items []
    (by simpa using hwf) (by simpa using hlim)
    (by intro i h; exact absurd h (Nat.not_lt_zero i))
  have hlen' : res.length = items.length := by simpa using hlen
  have htake : res.take limit.toNat = res := by
    apply List.take_of_length_le
    rw [hlen']
    omega
  refine ⟨res, ?_, hlen', hranks⟩
  simp only [parse_jsonld_itemlist, htype, hitems, hloop, Except.map]
  rw [htake]

theorem itemlist_ok_length (obj : JDict) (limit : Int) (l : List ChartEntry)
    (h : parse_jsonld_itemlist obj limit = .ok l) : l.length ≤ limit.toNat := by
  unfold parse_jsonld_itemlist at h
  split at h
  · split at h
    · rename_i items _
      cases hr : itemsLoop limit items [] with
      | error e =>
        rw [hr] at h
        simp [Except.map] at h
      | ok res =>
        rw [hr] at h
        simp only [Except.map, Except.ok.injEq] at h
        subst h
        have := List.length_take limit.toNat res
        omega
    · simp only [Except.ok.injEq] at h
      subst h
      simp
  · simp only [Except.ok.injEq] at h
    subst h
    simp

theorem scanQueue_ok_length (limit : Int) (q : List Json) (l : List ChartEntry)
    (h : scanQueue limit q = .ok (some l)) : l.length ≤ limit.toNat := by
  induction q with
  | nil => simp [scanQueue] at h
  | cons o rest ih =>
    unfold scanQueue at h
    split at h
    · rename_i kvs
      split at h
      · exact absurd h (by simp)
      · rename_i extracted hex
        split at h
        · exact ih h
        · simp only [Except.ok.injEq, Option.some.injEq] at h
          subst h
          exact itemlist_ok_length _ _ _ hex
    · exact ih h

theorem parse_jsonld_ok_length (blocks : List (Option Json)) (limit : Int)
    (l : List ChartEntry) (h : parse_jsonld blocks limit = .ok l) :
    l.length ≤ limit.toNat := by
  induction blocks with
  | nil =>
    simp only [parse_jsonld, Except.ok.injEq] at h
    subst h
    simp
  | cons b rest ih =>
    cases b with
    | none =>
      exact ih h
    | some data =>
      unfold parse_jsonld at h
      split at h
      · exact absurd h (by simp)
      · rename_i extracted hex
        simp only [Except.ok.injEq] at h
        subst h
        exact scanQueue_ok_length _ _ _ hex
      · rename_i hnone
        exact ih h

theorem ranks_seq_pairwise (l : List ChartEntry)
    (h : ∀ i (hh : i < l.length), (l.get ⟨i, hh⟩).rank = (i : Int) + 1) :
    List.Pairwise (fun a b => a.rank < b.rank) l := by
  rw [List.pairwise_iff_get]
  intro i j hij
  rw [h i i.isLt, h j j.isLt]
  have hij' : (i : Nat) < (j : Nat) := hij
  push_cast
  omega

end Billboard

namespace Billboard

theorem scenItemOK : ∀ i (h : i < scenItems.length), itemOK i (scenItems.get ⟨i, h⟩) := by
  intro i h
  have hi : i = 0 := by
    simp [scenItems] at h
    exact h
  subst hi
  exact ⟨_, rfl, rfl, by decide, _, rfl, ⟨"Song A", rfl, by decide⟩, "Artist A", rfl⟩

/-- Claim C1: for every ItemList payload whose `itemListElement` items are
all well-formed (`itemOK`: ListItem dicts with a non-empty cleaned title,
an extractable artist, and a position that either declares the sequential
rank or falls back to it when missing/falsy/unparseable) with `N ≤ limit`,
`_parse_jsonld_itemlist` returns exactly `N` entries with ranks `1..N` in
ascending order; an item whose title cleans to the empty string is skipped;
and the spec's concrete scenario payload with `limit = 1` yields exactly
`[{rank: 1, title: "Song A", artist: "Artist A"}]` through `fetch_hot100`. -/
theorem parse_jsonld_itemlist_wellformed (obj : JDict) (items : List Json) (limit : Int)
    (htype : jget obj "@type" = some (.str "ItemList"))
    (hitems : jget obj "itemListElement" = some (.arr items))
    (hwf : ∀ i (h : i < items.length), itemOK i (items.get ⟨i, h⟩))
    (hlim : (items.length : Int) ≤ limit) :
    (∃ l, parse_jsonld_itemlist obj limit = .ok l ∧ l.length = items.length ∧
      ∀ i (h : i < l.length), (l.get ⟨i, h⟩).rank = (i : Int) + 1) ∧
    (∀ (idx : Nat) (kvs item_kvs : JDict),
      jget kvs "@type" = some (.str "ListItem") →
      (jget kvs "item").getD (.obj []) = .obj item_kvs →
      cleanJ ((jget item_kvs "name").getD (.str "")) = .ok "" →
      (∃ a, artistOf item_kvs = .ok a) →
      itemStep (Json.obj kvs) idx = .ok none) ∧
    fetch_hot100 "2024-01-06" 1 (some scenPage) =
      (.ok [⟨1, "Song A", "Artist A"⟩], 1) := by
  refine ⟨parse_jsonld_itemlist_core obj items limit htype hitems hwf hlim, ?_, rfl⟩
  intro idx kvs item_kvs ht hi hn ha
  obtain ⟨a, ha⟩ := ha
  simp only [itemStep, ht, hi, hn, ha]
  simp

theorem parse_jsonld_itemlist_wellformed_witness :
    (∃ l, parse_jsonld_itemlist scenDict 1 = .ok l ∧ l.length = scenItems.length ∧
      ∀ i (h : i < l.length), (l.get ⟨i, h⟩).rank = (i : Int) + 1) ∧
    fetch_hot100 "2024-01-06" 1 (some scenPage) =
      (.ok [⟨1, "Song A", "Artist A"⟩], 1) := by
  have H := parse_jsonld_itemlist_wellformed scenDict scenItems 1 rfl rfl scenItemOK
    (by decide)
  exact ⟨H.1, H.2.2⟩

/-- Claim C2: when the structured-data strategy yields zero entries,
`fetch_hot100` returns exactly the markup-fallback result, whose entries
are deduplicated by the case-insensitive (title, artist) key, carry
sequential ranks starting at 1 in document order, and number at most
`limit`; and whenever the structured-data strategy yields at least one
entry, the markup fallback is not used (the structured entries are
returned unchanged). -/
theorem fetch_hot100_fallback_strategy (date_str : String) (page : Page) (limit : Int) :
    (parse_jsonld page.jsonldBlocks limit = .ok [] →
      (fetch_hot100 date_str limit (some page)).1 =
        .ok (parse_html_fallback page.markupRows limit) ∧
      (∀ i (h : i < (parse_html_fallback page.markupRows limit).length),
        ((parse_html_fallback page.markupRows limit).get ⟨i, h⟩).rank = (i : Int) + 1) ∧
      ((parse_html_fallback page.markupRows limit).map keyOf).Nodup ∧
      (parse_html_fallback page.markupRows limit).length ≤ limit.toNat) ∧
    (∀ e es, parse_jsonld page.jsonldBlocks limit = .ok (e :: es) →
      (fetch_hot100 date_str limit (some page)).1 = .ok (e :: es)) := by
  constructor
  · intro h0
    refine ⟨?_, parse_html_fallback_ranks _ _, parse_html_fallback_nodup _ _,
      parse_html_fallback_length_le _ _⟩
    unfold fetch_hot100
    by_cases hlim : limit ≤ 0
    · rw [if_pos hlim]
      have ht : limit.toNat = 0 := by omega
      simp [parse_html_fallback, ht]
    · rw [if_neg hlim]
      simp [h0]
  · intro e es h1
    by_cases hlim : limit ≤ 0
    · exfalso
      have hle := parse_jsonld_ok_length _ _ _ h1
      have ht : limit.toNat = 0 := by omega
      rw [ht] at hle
      simp at hle
    · unfold fetch_hot100
      rw [if_neg hlim]
      simp [h1]

theorem fetch_hot100_fallback_strategy_witness :
    ((fetch_hot100 "2024-01-06" 10 (some markupPage)).1 =
      .ok (parse_html_fallback markupPage.markupRows 10) ∧
     ((parse_html_fallback markupPage.markupRows 10).map keyOf).Nodup) ∧
    (fetch_hot100 "2024-01-06" 1 (some scenPage)).1 =
      .ok [⟨1, "Song A", "Artist A"⟩] := by
  have H1 := (fetch_hot100_fallback_strategy "2024-01-06" markupPage 10).1 rfl
  have H2 := (fetch_hot100_fallback_strategy "2024-01-06" scenPage 1).2
    ⟨1, "Song A", "Artist A"⟩ [] rfl
  exact ⟨⟨H1.1, H1.2.2.1⟩, H2⟩

/-- Claim C5, counterexample: an ItemList payload declaring position 1
twice makes `fetch_hot100` return two entries with the same rank, refuting
the unrestricted invariant that result ranks are duplicate-free and
ascending. -/
theorem rank_invariant_counterexample :
    (fetch_hot100 "2024-01-06" 10 (some dupPage)).1 =
      .ok [⟨1, "Song A", "Artist A"⟩, ⟨1, "Song B", "Artist B"⟩] ∧
    ¬ (([(⟨1, "Song A", "Artist A"⟩ : ChartEntry),
         ⟨1, "Song B", "Artist B"⟩].map ChartEntry.rank).Nodup) ∧
    ¬ List.Pairwise (fun a b : ChartEntry => a.rank < b.rank)
        [(⟨1, "Song A", "Artist A"⟩ : ChartEntry), ⟨1, "Song B", "Artist B"⟩] :=
  ⟨rfl, by decide, by decide⟩

/-- Claim C5, amended: the no-duplicate-ascending-rank invariant holds
unconditionally on the markup fallback path, and on the structured-data
path whenever the declared positions are well-formed (sequential or
absent, `itemOK`); the raw structured-data path copies declared positions
verbatim, so adversarial payloads can violate it (see the
counterexample). -/
theorem rank_invariant_amended :
    (∀ (rows : List MarkupRow) (limit : Int),
      List.Pairwise (fun a b : ChartEntry => a.rank < b.rank)
        (parse_html_fallback rows limit)) ∧
    (∀ (obj : JDict) (items : List Json) (limit : Int),
      jget obj "@type" = some (.str "ItemList") →
      jget obj "itemListElement" = some (.arr items) →
      (∀ i (h : i < items.length), itemOK i (items.get ⟨i, h⟩)) →
      (items.length : Int) ≤ limit →
      ∃ l, parse_jsonld_itemlist obj limit = .ok l ∧
        List.Pairwise (fun a b : ChartEntry => a.rank < b.rank) l) := by
  constructor
  · intro rows limit
    exact ranks_seq_pairwise _ (parse_html_fallback_ranks rows limit)
  · intro obj items limit htype hitems hwf hlim
    obtain ⟨l, hl, _, hranks⟩ := parse_jsonld_itemlist_core obj items limit htype hitems hwf hlim
    exact ⟨l, hl, ranks_seq_pairwise _ hranks⟩

theorem rank_invariant_amended_witness :
    List.Pairwise (fun a b : ChartEntry => a.rank < b.rank)
      (parse_html_fallback markupPage.markupRows 10) ∧
    (∃ l, parse_jsonld_itemlist scenDict 1 = .ok l ∧
      List.Pairwise (fun a b : ChartEntry => a.rank < b.rank) l) :=
  ⟨rank_invariant_amended.1 markupPage.markupRows 10,
   rank_invariant_amended.2 scenDict scenItems 1 rfl rfl scenItemOK (by decide)⟩

end Billboard
